import Mathlib

/-!
Verification of `HostApp/script.js` (Conference-QR-Hunt).

The file shallowly embeds the `hostGame` class of `src/HostApp/script.js`:
the game state (`#gName`, `#qList`), its mutators (`qListAdd`, `qListDelete`,
`setGName`) and the codec pair (`#hashState`, `#unhashState`, in both of the
two revisions present in the source file).  The JavaScript builtins that the
source calls (`String.prototype.trim`, `String.prototype.split(/\s+/).length`,
`Array.prototype.splice`, `JSON.stringify`, `JSON.parse`, property access) are
embedded concretely; the external LZString compressor, which is not part of
the repository, is modelled from the spec as an opaque reversible compressor.

Conventions: strings are Lean `String`s (lists of characters); a JavaScript
value decoded from JSON is a `Json`; `Option Json` with `none` stands for the
JavaScript value `undefined`.
-/

namespace QRHunt

/-- The JavaScript whitespace class: the characters matched by the regex
class `\s` and removed by `String.prototype.trim` (identical sets). -/
def isWsChar (c : Char) : Bool :=
  c = ' ' || c = '\t' || c = '\n' || c = '\r' || c = '\x0b' || c = '\x0c' ||
  c = '\u00a0' || c = '\u1680' ||
  (0x2000 ≤ c.toNat && c.toNat ≤ 0x200a) ||
  c = '\u2028' || c = '\u2029' || c = '\u202f' || c = '\u205f' ||
  c = '\u3000' || c = '\ufeff'

/-- `String.prototype.trim`: removes leading and trailing whitespace. -/
def jsTrim (s : String) : String :=
  String.mk (((s.data.dropWhile isWsChar).reverse.dropWhile isWsChar).reverse)

/-- Counts the maximal runs of non-whitespace characters in a character
list.  The flag records whether the previous character was part of a word. -/
def countWordsAux (inWord : Bool) : List Char → Nat
  | [] => 0
  | c :: r =>
    if isWsChar c then countWordsAux false r
    else (if inWord then 0 else 1) + countWordsAux true r

/-- `item.trim().split(/\s+/).length` as computed in `qListAdd`: for the
trimmed, non-empty strings on which the source evaluates it, the length of
the `split(/\s+/)` array is exactly the number of maximal non-whitespace
runs. -/
def jsWordCount (s : String) : Nat :=
  countWordsAux false (jsTrim s).data

/-- JSON values, as produced by `JSON.parse`.  JSON numbers are modelled as
integers (no state of this program serializes a number, and no claim
depends on fractional values). -/
inductive Json where
  | null : Json
  | bool : Bool → Json
  | num : Int → Json
  | str : String → Json
  | arr : List Json → Json
  | obj : List (String × Json) → Json

/-- JavaScript property access `v.k` on a non-null value: `some` is the
property value, `none` is `undefined`.  With duplicate keys the last
assignment wins, as in objects built by `JSON.parse`. -/
def jsGetProp (v : Json) (k : String) : Option Json :=
  match v with
  | Json.obj fields =>
    match fields.reverse.find? (fun p => p.1 == k) with
    | some p => some p.2
    | none => none
  | _ => none

/-- JavaScript truthiness test `!v` (negated) for a JSON-decoded value:
`null`, `false`, `0` and the empty string are falsy. -/
def jsFalsy : Json → Bool
  | Json.null => true
  | Json.bool false => true
  | Json.num 0 => true
  | Json.str "" => true
  | _ => false

/-- A question accepted by `qListAdd`'s validation: non-empty after trimming
and at most 20 whitespace-delimited words. -/
abbrev ValidQuestion (q : String) : Prop :=
  jsTrim q ≠ "" ∧ jsWordCount q ≤ 20

/-- `Array.prototype.splice(index, 1)`: a negative start counts from the end
of the array, clamped at 0; a start at or beyond the length deletes
nothing. -/
def spliceDelete1 (l : List α) (index : Int) : List α :=
  let len : Int := l.length
  let start : Nat := if index < 0 then (max (len + index) 0).toNat
                     else min index.toNat l.length
  l.take start ++ l.drop (start + 1)

/-- Digit character for a value below 10. -/
def digitCh (d : Nat) : Char := Char.ofNat (48 + d)

/-- Numeric value of a decimal digit character. -/
def digitVal (c : Char) : Option Nat :=
  if 48 ≤ c.toNat ∧ c.toNat ≤ 57 then some (c.toNat - 48) else none

/-- Little-endian decimal digits of `n`, with explicit fuel so that the
recursion is structural (an empty list encodes 0). -/
def toDecAux : Nat → Nat → List Nat
  | 0, _ => []
  | fuel + 1, n => if n = 0 then [] else n % 10 :: toDecAux fuel (n / 10)

/-- Little-endian decimal digits of `n`. -/
def toDec (n : Nat) : List Nat := toDecAux n n

theorem ofDigits_toDecAux (fuel : Nat) :
    ∀ n, n ≤ fuel → Nat.ofDigits 10 (toDecAux fuel n) = n := by
  induction fuel with
  | zero =>
    intro n hn
    interval_cases n
    simp [toDecAux, Nat.ofDigits]
  | succ fuel ih =>
    intro n hn
    by_cases h0 : n = 0
    · subst h0
      simp [toDecAux, Nat.ofDigits]
    · have hdiv : n / 10 ≤ fuel := by
        have := Nat.div_lt_self (Nat.pos_of_ne_zero h0) (by norm_num : 1 < 10)
        omega
      simp only [toDecAux, if_neg h0, Nat.ofDigits_cons, ih (n / 10) hdiv]
      omega

theorem ofDigits_toDec (n : Nat) : Nat.ofDigits 10 (toDec n) = n :=
  ofDigits_toDecAux n n (le_refl n)

theorem toDecAux_lt (fuel : Nat) : ∀ n, ∀ d ∈ toDecAux fuel n, d < 10 := by
  induction fuel with
  | zero => intro n d hd; simp [toDecAux] at hd
  | succ fuel ih =>
    intro n d hd
    by_cases h0 : n = 0
    · subst h0; simp [toDecAux] at hd
    · simp only [toDecAux, if_neg h0, List.mem_cons] at hd
      rcases hd with hd | hd
      · subst hd; exact Nat.mod_lt _ (by norm_num)
      · exact ih _ d hd

theorem toDec_lt (n : Nat) : ∀ d ∈ toDec n, d < 10 :=
  fun d hd => toDecAux_lt n n d hd

/-- Modelled from the spec: `LZString.compressToEncodedURIComponent`, the
external compressor the source delegates to, specified only as an opaque
reversible compressor whose output uses a URL-fragment-safe alphabet.  The
model encodes each character's code point in little-endian decimal followed
by a dash, after a fixed leading marker; the exact alphabet is irrelevant to
every claim, only reversibility and the URL-safe character set matter. -/
def compressToEncodedURIComponent (s : String) : String :=
  String.mk ('Z' :: (s.data.map (fun c => (toDec c.toNat).map digitCh ++ ['-'])).flatten)

/-- Helper for the decompressor: consumes digit characters into `acc`
(little-endian, in reading order) and emits a character at each dash. -/
def decChars (acc : List Nat) : List Char → Option (List Char)
  | [] => if acc.isEmpty then some [] else none
  | c :: r =>
    if c = '-' then
      match decChars [] r with
      | some rest => some (Char.ofNat (Nat.ofDigits 10 acc) :: rest)
      | none => none
    else
      match digitVal c with
      | some d => decChars (acc ++ [d]) r
      | none => none

/-- Modelled from the spec: `LZString.decompressFromEncodedURIComponent`.
Returns `none` (the library's `null`) on the empty string and on any string
that is not a well-formed output of the compressor, matching the spec's
treatment of decompression failure as a detectable error. -/
def decompressFromEncodedURIComponent (s : String) : Option String :=
  match s.data with
  | 'Z' :: r =>
    match decChars [] r with
    | some l => some (String.mk l)
    | none => none
  | _ => none

theorem digitVal_digitCh : ∀ d, d < 10 → digitVal (digitCh d) = some d := by
  decide

theorem decChars_digits (ds : List Nat) (hds : ∀ d ∈ ds, d < 10) :
    ∀ acc rest, decChars acc (ds.map digitCh ++ rest) = decChars (acc ++ ds) rest := by
  induction ds with
  | nil => intro acc rest; simp
  | cons d ds ih =>
    intro acc rest
    have hd : d < 10 := hds d (by simp)
    have hdig : digitVal (digitCh d) = some d := digitVal_digitCh d hd
    have hnd : digitCh d ≠ '-' := by
      intro h
      rw [h] at hdig
      simp [digitVal] at hdig
    simp only [List.map_cons, List.cons_append, decChars, if_neg hnd, hdig, List.append_eq]
    rw [ih (fun x hx => hds x (by simp [hx])) (acc ++ [d]) rest]
    simp

theorem decompress_compress (s : String) :
    decompressFromEncodedURIComponent (compressToEncodedURIComponent s) = some s := by
  suffices h : ∀ l : List Char,
      decChars [] ((l.map (fun c => (toDec c.toNat).map digitCh ++ ['-'])).flatten) = some l by
    cases s with
    | mk data =>
      simp only [compressToEncodedURIComponent, decompressFromEncodedURIComponent, h]
  intro l
  induction l with
  | nil => simp [decChars]
  | cons c l ih =>
    simp only [List.map_cons, List.flatten_cons, List.append_assoc]
    rw [decChars_digits _ (toDec_lt _) [] _]
    simp [decChars, ih, ofDigits_toDec, Char.ofNat_toNat]

/-- Hexadecimal digit character for a value below 16 (lowercase, as
emitted by `JSON.stringify`). -/
def hexDig (n : Nat) : Char :=
  if n < 10 then Char.ofNat (48 + n) else Char.ofNat (87 + n)

/-- Value of a hexadecimal digit character (either case). -/
def hexVal (c : Char) : Option Nat :=
  if 48 ≤ c.toNat ∧ c.toNat ≤ 57 then some (c.toNat - 48)
  else if 97 ≤ c.toNat ∧ c.toNat ≤ 102 then some (c.toNat - 87)
  else if 65 ≤ c.toNat ∧ c.toNat ≤ 70 then some (c.toNat - 55)
  else none

/-- The escaping `JSON.stringify` applies inside a string literal: quote and
backslash get a backslash escape, the five named control characters get
their short escapes, the remaining control characters get `\u00xx`, and
every other character is emitted literally. -/
def escapeChar (c : Char) : List Char :=
  if c = '"' then ['\\', '"']
  else if c = '\\' then ['\\', '\\']
  else if c = '\x08' then ['\\', 'b']
  else if c = '\t' then ['\\', 't']
  else if c = '\n' then ['\\', 'n']
  else if c = '\x0c' then ['\\', 'f']
  else if c = '\r' then ['\\', 'r']
  else if c.toNat < 32 then
    ['\\', 'u', '0', '0', hexDig (c.toNat / 16), hexDig (c.toNat % 16)]
  else [c]

/-- Escapes every character of a string body. -/
def escapeList (l : List Char) : List Char := (l.map escapeChar).flatten

/-- A JSON string literal: quotes around the escaped body. -/
def quoteList (l : List Char) : List Char := '"' :: (escapeList l ++ ['"'])

/-- Comma-separated concatenation, as `JSON.stringify` renders the elements
of an array. -/
def sepByComma : List (List Char) → List Char
  | [] => []
  | [x] => x
  | x :: y :: xs => x ++ ',' :: sepByComma (y :: xs)

/-- `JSON.stringify({title: gName, list: qList})` from `#hashState`: the
exact character stream `JSON.stringify` produces for this two-field object
holding a string and an array of strings (key order `title`, `list`; no
inserted whitespace). -/
def stringifyState (gName : String) (qList : List String) : List Char :=
  '\x7b' :: (quoteList "title".data ++ ':' :: quoteList gName.data ++
    ',' :: quoteList "list".data ++ ':' :: '[' ::
    (sepByComma (qList.map (fun q => quoteList q.data)) ++ ']' :: '\x7d' :: []))

/-- `#hashState`: serialize the two fields to JSON, compress, and publish
the result as the new location fragment (the returned string). -/
def hashState (gName : String) (qList : List String) : String :=
  compressToEncodedURIComponent (String.mk (stringifyState gName qList))

/-- The observable state of a `hostGame` instance in ordinary operation
(string-typed fields), together with the published location fragment that
`#hashState` keeps synchronized. -/
structure Store where
  gName : String
  qList : List String
  hash : String
deriving DecidableEq

/-- `getGameName`. -/
def getGameName (st : Store) : String := st.gName

/-- `getQuestions`: returns a defensive copy `[...this.#qList]`; the copy is
equal as a list to the internal field. -/
def getQuestions (st : Store) : List String := st.qList

/-- The validation outcome of `qListAdd`: success, or one of the three
error results (`TooManyWordsError` carries the offending word count). -/
inductive AddOutcome where
  | ok : AddOutcome
  | notAString : AddOutcome
  | emptyQuestion : AddOutcome
  | tooManyWords : Nat → AddOutcome
deriving DecidableEq

/-- The `error` string of the result object `qListAdd` returns, exactly as
written in the source. -/
def addOutcomeError : AddOutcome → Option String
  | AddOutcome.ok => none
  | AddOutcome.notAString => some "Item must be a string"
  | AddOutcome.emptyQuestion => some "Question cannot be empty"
  | AddOutcome.tooManyWords n =>
    some ("Question must be 20 words or less (currently " ++ toString n ++ " words)")

/-- `qListAdd(item)`.  The argument is a JavaScript value (`none` is
`undefined`); the `typeof item !== 'string'` guard, the emptiness guard on
the trimmed text, and the 20-word bound are checked in source order.  On
success the original, untrimmed `item` is pushed and `#hashState` republishes
the fragment; on every error the store (fields and fragment) is returned
untouched. -/
def qListAdd (st : Store) (item : Option Json) : Store × AddOutcome :=
  match item with
  | some (Json.str s) =>
    if jsTrim s = "" then (st, AddOutcome.emptyQuestion)
    else
      let wordCount := jsWordCount s
      if wordCount > 20 then (st, AddOutcome.tooManyWords wordCount)
      else
        let qList := st.qList ++ [s]
        (⟨st.gName, qList, hashState st.gName qList⟩, AddOutcome.ok)
  | _ => (st, AddOutcome.notAString)

/-- `qListDelete(index)`: `this.#qList.splice(index, 1)` followed
unconditionally by `#hashState`. -/
def qListDelete (st : Store) (index : Int) : Store :=
  let qList := spliceDelete1 st.qList index
  ⟨st.gName, qList, hashState st.gName qList⟩

/-- `setGName(name)`: replaces the title unconditionally, then re-syncs. -/
def setGName (st : Store) (name : String) : Store :=
  ⟨name, st.qList, hashState name st.qList⟩

/-- Skips the whitespace `JSON.parse` allows between tokens. -/
def skipWs : List Char → List Char
  | [] => []
  | c :: r => if c = ' ' ∨ c = '\t' ∨ c = '\n' ∨ c = '\r' then skipWs r else c :: r

/-- Parses the body of a JSON string literal (the part after the opening
quote) up to and including the closing quote, undoing the escapes; fails on
a raw control character, an unknown escape, or a missing closing quote. -/
def parseStringBody : List Char → Option (List Char × List Char)
  | [] => none
  | c :: rest =>
    if c = '"' then some ([], rest)
    else if c = '\\' then
      match rest with
      | [] => none
      | e :: r2 =>
        if e = '"' then (parseStringBody r2).map (fun p => ('"' :: p.1, p.2))
        else if e = '\\' then (parseStringBody r2).map (fun p => ('\\' :: p.1, p.2))
        else if e = '/' then (parseStringBody r2).map (fun p => ('/' :: p.1, p.2))
        else if e = 'b' then (parseStringBody r2).map (fun p => ('\x08' :: p.1, p.2))
        else if e = 't' then (parseStringBody r2).map (fun p => ('\t' :: p.1, p.2))
        else if e = 'n' then (parseStringBody r2).map (fun p => ('\n' :: p.1, p.2))
        else if e = 'f' then (parseStringBody r2).map (fun p => ('\x0c' :: p.1, p.2))
        else if e = 'r' then (parseStringBody r2).map (fun p => ('\r' :: p.1, p.2))
        else if e = 'u' then
          match r2 with
          | h1 :: h2 :: h3 :: h4 :: r3 =>
            match hexVal h1, hexVal h2, hexVal h3, hexVal h4 with
            | some a, some b, some c2, some d =>
              (parseStringBody r3).map
                (fun p => (Char.ofNat (((a * 16 + b) * 16 + c2) * 16 + d) :: p.1, p.2))
            | _, _, _, _ => none
          | _ => none
        else none
    else if c.toNat < 32 then none
    else (parseStringBody rest).map (fun p => (c :: p.1, p.2))

/-- Parses a non-empty run of decimal digits into a natural number.  JSON
numbers are modelled as integers (see `Json.num`). -/
def parseDigits (l : List Char) : Option (Nat × List Char) :=
  let ds := l.takeWhile (fun c => (digitVal c).isSome)
  if ds.isEmpty then none
  else some (ds.foldl (fun acc c => acc * 10 + ((digitVal c).getD 0)) 0,
             l.dropWhile (fun c => (digitVal c).isSome))

mutual

/-- Parses one JSON value, `JSON.parse`-style.  The `fuel` argument only
bounds the recursion and strictly decreases on every nested call; the
top-level entry point `jsonParse` passes enough for any input it is given. -/
def parseVal : Nat → List Char → Option (Json × List Char)
  | 0, _ => none
  | fuel + 1, l =>
    match skipWs l with
    | [] => none
    | c :: r =>
      if c = '"' then (parseStringBody r).map (fun p => (Json.str (String.mk p.1), p.2))
      else if c = '[' then
        match skipWs r with
        | ']' :: r2 => some (Json.arr [], r2)
        | r2 => (parseElems fuel r2).map (fun p => (Json.arr p.1, p.2))
      else if c = '\x7b' then
        match skipWs r with
        | '\x7d' :: r2 => some (Json.obj [], r2)
        | r2 => (parseFields fuel r2).map (fun p => (Json.obj p.1, p.2))
      else if c = 't' then
        match r with
        | 'r' :: 'u' :: 'e' :: r2 => some (Json.bool true, r2)
        | _ => none
      else if c = 'f' then
        match r with
        | 'a' :: 'l' :: 's' :: 'e' :: r2 => some (Json.bool false, r2)
        | _ => none
      else if c = 'n' then
        match r with
        | 'u' :: 'l' :: 'l' :: r2 => some (Json.null, r2)
        | _ => none
      else if c = '-' then
        match parseDigits r with
        | some p => some (Json.num (-(p.1 : Int)), p.2)
        | none => none
      else
        match digitVal c with
        | some _ =>
          match parseDigits (c :: r) with
          | some p => some (Json.num (p.1 : Int), p.2)
          | none => none
        | none => none

/-- Parses the elements of a non-empty JSON array after the opening
bracket, up to and including the closing bracket. -/
def parseElems : Nat → List Char → Option (List Json × List Char)
  | 0, _ => none
  | fuel + 1, l =>
    match parseVal fuel l with
    | none => none
    | some (v, r) =>
      match skipWs r with
      | ',' :: r2 => (parseElems fuel r2).map (fun p => (v :: p.1, p.2))
      | ']' :: r2 => some ([v], r2)
      | _ => none

/-- Parses the fields of a non-empty JSON object after the opening brace,
up to and including the closing brace. -/
def parseFields : Nat → List Char → Option (List (String × Json) × List Char)
  | 0, _ => none
  | fuel + 1, l =>
    match skipWs l with
    | '"' :: r =>
      match parseStringBody r with
      | none => none
      | some (key, r2) =>
        match skipWs r2 with
        | ':' :: r3 =>
          match parseVal fuel r3 with
          | none => none
          | some (v, r4) =>
            match skipWs r4 with
            | ',' :: r5 => (parseFields fuel r5).map (fun p => ((String.mk key, v) :: p.1, p.2))
            | '\x7d' :: r5 => some ([(String.mk key, v)], r5)
            | _ => none
        | _ => none
    | _ => none

end

/-- `JSON.parse`: parses one value and requires only whitespace after it;
`none` models the thrown `SyntaxError`. -/
def jsonParse (s : String) : Option Json :=
  match parseVal (s.data.length + 1) s.data with
  | some (v, rest) => if (skipWs rest).isEmpty then some v else none
  | none => none

/-- The string JavaScript coerces the argument of `JSON.parse` to:
`null` (a failed decompression) coerces to the text `"null"`. -/
def jsStringOrNull : Option String → String
  | none => "null"
  | some s => s

/-- The fields of a `hostGame` instance right after `#unhashState` ran:
hydration assigns whatever JavaScript values `obj.title` and `obj.list`
evaluate to (`none` is `undefined`), so the fields are not yet known to be
a string and an array.  `success` is the boolean of the returned result
object. -/
structure UnhashResult where
  gName : Option Json
  qList : Option Json
  success : Bool

/-- `#unhashState`, second revision (lines 282-295): the whole pipeline is
wrapped in try/catch.  `JSON.parse` throwing (malformed text) and
`obj.title` throwing (`obj` is `null`, from an empty or undecompressible
fragment) both land in the catch block, which resets both fields and
reports failure; any other parsed value hydrates both fields by plain
property access, with no validation of their presence or types. -/
def unhashState2 (frag : String) : UnhashResult :=
  match jsonParse (jsStringOrNull (decompressFromEncodedURIComponent frag)) with
  | none => ⟨some (Json.str ""), some (Json.arr []), false⟩
  | some Json.null => ⟨some (Json.str ""), some (Json.arr []), false⟩
  | some obj => ⟨jsGetProp obj "title", jsGetProp obj "list", true⟩

/-- `#unhashState`, first revision (lines 88-101): no try/catch.  If
`JSON.parse` throws on malformed text the exception escapes the method (and
the constructor): that uncaught throw is the `Except.error` case.  A parsed
falsy value (`null` from an empty or undecompressible fragment) takes the
explicit `if (!obj)` reset branch. -/
def unhashState1 (frag : String) : Except Unit UnhashResult :=
  match jsonParse (jsStringOrNull (decompressFromEncodedURIComponent frag)) with
  | none => Except.error ()
  | some obj =>
    if jsFalsy obj then Except.ok ⟨some (Json.str ""), some (Json.arr []), false⟩
    else Except.ok ⟨jsGetProp obj "title", jsGetProp obj "list", true⟩

theorem hexVal_hexDig : ∀ d, d < 16 → hexVal (hexDig d) = some d := by
  decide

theorem parseStringBody_escape (l : List Char) :
    ∀ rest, parseStringBody (escapeList l ++ '"' :: rest) = some (l, rest) := by
  induction l with
  | nil =>
    intro rest
    have h : escapeList [] = [] := by simp [escapeList]
    rw [h, List.nil_append, parseStringBody.eq_def]
    simp
  | cons c l ih =>
    intro rest
    have hesc : escapeList (c :: l) ++ '"' :: rest =
        escapeChar c ++ (escapeList l ++ '"' :: rest) := by
      simp [escapeList]
    rw [hesc]
    by_cases h1 : c = '"'
    · subst h1
      have h : escapeChar '"' = ['\\', '"'] := rfl
      rw [h, parseStringBody.eq_def]
      simp [ih]
    by_cases h2 : c = '\\'
    · subst h2
      have h : escapeChar '\\' = ['\\', '\\'] := rfl
      rw [h, parseStringBody.eq_def]
      simp [ih]
    by_cases h3 : c = '\x08'
    · subst h3
      have h : escapeChar '\x08' = ['\\', 'b'] := rfl
      rw [h, parseStringBody.eq_def]
      simp [ih]
    by_cases h4 : c = '\t'
    · subst h4
      have h : escapeChar '\t' = ['\\', 't'] := rfl
      rw [h, parseStringBody.eq_def]
      simp [ih]
    by_cases h5 : c = '\n'
    · subst h5
      have h : escapeChar '\n' = ['\\', 'n'] := rfl
      rw [h, parseStringBody.eq_def]
      simp [ih]
    by_cases h6 : c = '\x0c'
    · subst h6
      have h : escapeChar '\x0c' = ['\\', 'f'] := rfl
      rw [h, parseStringBody.eq_def]
      simp [ih]
    by_cases h7 : c = '\r'
    · subst h7
      have h : escapeChar '\r' = ['\\', 'r'] := rfl
      rw [h, parseStringBody.eq_def]
      simp [ih]
    by_cases h8 : c.toNat < 32
    · have h : escapeChar c =
          ['\\', 'u', '0', '0', hexDig (c.toNat / 16), hexDig (c.toNat % 16)] := by
        simp [escapeChar, h1, h2, h3, h4, h5, h6, h7, h8]
      have hv1 : hexVal (hexDig (c.toNat / 16)) = some (c.toNat / 16) :=
        hexVal_hexDig _ (by omega)
      have hv2 : hexVal (hexDig (c.toNat % 16)) = some (c.toNat % 16) :=
        hexVal_hexDig _ (by omega)
      have hchar : Char.ofNat (c.toNat / 16 * 16 + c.toNat % 16) = c := by
        have harith : c.toNat / 16 * 16 + c.toNat % 16 = c.toNat := by omega
        rw [harith, Char.ofNat_toNat]
      have hv0 : hexVal '0' = some 0 := by decide
      rw [h, parseStringBody.eq_def]
      simp [hv0, hv1, hv2, ih, hchar]
    · have h : escapeChar c = [c] := by
        simp [escapeChar, h1, h2, h3, h4, h5, h6, h7, h8]
      rw [h, List.singleton_append, parseStringBody.eq_def]
      simp [h1, h2, h8, ih]

theorem stringMk_data (s : String) : String.mk s.data = s := by
  cases s
  rfl

theorem quoteList_append (l rest : List Char) :
    quoteList l ++ rest = '"' :: (escapeList l ++ '"' :: rest) := by
  simp [quoteList]

theorem skipWs_nws (c : Char) (r : List Char)
    (h : ¬(c = ' ' ∨ c = '\t' ∨ c = '\n' ∨ c = '\r')) : skipWs (c :: r) = c :: r := by
  simp [skipWs, h]

theorem skipWs_quote (r : List Char) : skipWs ('"' :: r) = '"' :: r :=
  skipWs_nws _ _ (by decide)

theorem skipWs_colon (r : List Char) : skipWs (':' :: r) = ':' :: r :=
  skipWs_nws _ _ (by decide)

theorem skipWs_comma (r : List Char) : skipWs (',' :: r) = ',' :: r :=
  skipWs_nws _ _ (by decide)

theorem skipWs_lbrack (r : List Char) : skipWs ('[' :: r) = '[' :: r :=
  skipWs_nws _ _ (by decide)

theorem skipWs_rbrack (r : List Char) : skipWs (']' :: r) = ']' :: r :=
  skipWs_nws _ _ (by decide)

theorem skipWs_lbrace (r : List Char) : skipWs ('\x7b' :: r) = '\x7b' :: r :=
  skipWs_nws _ _ (by decide)

theorem skipWs_rbrace (r : List Char) : skipWs ('\x7d' :: r) = '\x7d' :: r :=
  skipWs_nws _ _ (by decide)

theorem parseVal_quoted (fuel : Nat) (l : List Char) (rest : List Char) :
    parseVal (fuel + 1) (quoteList l ++ rest) = some (Json.str (String.mk l), rest) := by
  rw [quoteList_append, parseVal.eq_def]
  simp [skipWs_quote, parseStringBody_escape]

/-- The JSON value `#hashState` serializes: the two-field object. -/
def stateJson (gName : String) (qList : List String) : Json :=
  Json.obj [("title", Json.str gName), ("list", Json.arr (qList.map Json.str))]

theorem parseElems_quoted (qs : List String) (q : String) :
    ∀ fuel rest, parseElems (qs.length + fuel + 2)
      (sepByComma ((q :: qs).map (fun x => quoteList x.data)) ++ ']' :: rest) =
      some ((q :: qs).map Json.str, rest) := by
  induction qs generalizing q with
  | nil =>
    intro fuel rest
    rw [show ([] : List String).length + fuel + 2 = (fuel + 1) + 1 from by simp]
    rw [parseElems.eq_def]
    simp [sepByComma, parseVal_quoted, skipWs_rbrack, stringMk_data]
  | cons q' qs ih =>
    intro fuel rest
    have hsep : sepByComma ((q :: q' :: qs).map (fun x => quoteList x.data)) ++ ']' :: rest =
        quoteList q.data ++
          (',' :: (sepByComma ((q' :: qs).map (fun x => quoteList x.data)) ++ ']' :: rest)) := by
      simp [sepByComma]
    rw [hsep]
    rw [show (q' :: qs).length + fuel + 2 = ((qs.length + fuel + 2) + 1) from by
      simp only [List.length_cons]
      omega]
    rw [parseElems.eq_def]
    simp [parseVal_quoted, skipWs_comma, stringMk_data]
    simpa using ih q' fuel rest

theorem parseVal_array (qs : List String) (fuel : Nat) (rest : List Char) :
    parseVal (qs.length + fuel + 2)
      ('[' :: (sepByComma (qs.map (fun x => quoteList x.data)) ++ ']' :: rest)) =
      some (Json.arr (qs.map Json.str), rest) := by
  cases qs with
  | nil =>
    rw [show ([] : List String).length + fuel + 2 = (fuel + 1) + 1 from by simp]
    rw [parseVal.eq_def]
    simp [sepByComma, skipWs_lbrack, skipWs_rbrack]
  | cons q qs =>
    obtain ⟨t, ht⟩ : ∃ t,
        sepByComma ((q :: qs).map (fun x => quoteList x.data)) ++ ']' :: rest = '"' :: t := by
      cases qs with
      | nil =>
        refine ⟨escapeList q.data ++ '"' :: ']' :: rest, ?_⟩
        simp only [List.map_cons, List.map_nil, sepByComma]
        exact quoteList_append _ _
      | cons q2 qs2 =>
        refine ⟨escapeList q.data ++ '"' ::
          (',' :: (sepByComma ((q2 :: qs2).map (fun x => quoteList x.data)) ++ ']' :: rest)), ?_⟩
        simp only [List.map_cons, sepByComma, List.append_assoc, List.cons_append]
        exact quoteList_append _ _
    rw [show (q :: qs).length + fuel + 2 = ((q :: qs).length + fuel + 1) + 1 from rfl]
    rw [parseVal.eq_def]
    simp only [ht]
    simp only [skipWs_lbrack, skipWs_quote]
    simp [skipWs_quote]
    simp only [← ht]
    rw [show qs.length + 1 + fuel + 1 = qs.length + fuel + 2 from by omega]
    rw [parseElems_quoted qs q fuel rest]
    simp

theorem parseVal_quotedC (fuel : Nat) (l rest : List Char) :
    parseVal (fuel + 1) ('"' :: (escapeList l ++ '"' :: rest)) =
      some (Json.str (String.mk l), rest) := by
  rw [← quoteList_append]
  exact parseVal_quoted _ _ _

theorem parseFields_list (qs : List String) (fuel : Nat) :
    parseFields (qs.length + fuel + 4)
      ('"' :: (escapeList ['l', 'i', 's', 't'] ++ '"' :: ':' :: '[' ::
        (sepByComma (qs.map (fun q => quoteList q.data)) ++ [']', '\x7d']))) =
      some ([("list", Json.arr (qs.map Json.str))], []) := by
  rw [show qs.length + fuel + 4 = (qs.length + fuel + 3) + 1 from rfl]
  rw [parseFields.eq_def]
  simp only [skipWs_quote]
  rw [show (['l', 'i', 's', 't'] : List Char) = "list".data from rfl]
  rw [parseStringBody_escape]
  simp only [skipWs_colon]
  rw [show qs.length + fuel + 3 = qs.length + (fuel + 1) + 2 from by omega]
  rw [parseVal_array qs (fuel + 1) (['\x7d'])]
  simp [skipWs_rbrace, show String.mk ['l', 'i', 's', 't'] = "list" from rfl]

theorem parseFields_state (t : String) (qs : List String) (fuel : Nat) :
    parseFields (qs.length + fuel + 5)
      ('"' :: (escapeList ['t', 'i', 't', 'l', 'e'] ++ '"' :: ':' :: '"' ::
        (escapeList t.data ++ '"' :: ',' :: '"' ::
          (escapeList ['l', 'i', 's', 't'] ++ '"' :: ':' :: '[' ::
            (sepByComma (qs.map (fun q => quoteList q.data)) ++ [']', '\x7d']))))) =
      some ([("title", Json.str t), ("list", Json.arr (qs.map Json.str))], []) := by
  rw [show qs.length + fuel + 5 = (qs.length + fuel + 4) + 1 from rfl]
  rw [parseFields.eq_def]
  simp only [skipWs_quote]
  rw [show (['t', 'i', 't', 'l', 'e'] : List Char) = "title".data from rfl]
  rw [parseStringBody_escape]
  simp only [skipWs_colon]
  rw [show qs.length + fuel + 4 = (qs.length + fuel + 3) + 1 from rfl]
  rw [parseVal_quotedC]
  simp [skipWs_comma, parseFields_list, stringMk_data,
    show String.mk ['t', 'i', 't', 'l', 'e'] = "title" from rfl]

theorem parseVal_stringifyState (t : String) (qs : List String) (fuel : Nat) :
    parseVal (qs.length + fuel + 6) (stringifyState t qs) = some (stateJson t qs, []) := by
  rw [show qs.length + fuel + 6 = (qs.length + fuel + 5) + 1 from rfl]
  rw [stringifyState, parseVal.eq_def]
  simp only [quoteList_append, List.cons_append, List.append_assoc]
  rw [skipWs_lbrace]
  simp [skipWs_quote]
  exact ⟨[("title", Json.str t), ("list", Json.arr (qs.map Json.str))],
    parseFields_state t qs fuel, rfl⟩

theorem sepByComma_quoted_length (qs : List String) :
    qs.length ≤ (sepByComma (qs.map (fun q => quoteList q.data))).length := by
  induction qs with
  | nil => simp [sepByComma]
  | cons q qs ih =>
    cases qs with
    | nil => simp [sepByComma, quoteList]
    | cons q2 qs2 =>
      simp only [List.map_cons, sepByComma, List.length_append, List.length_cons]
      simp only [List.map_cons, List.length_cons] at ih
      omega

theorem stringifyState_length (t : String) (qs : List String) :
    qs.length + 5 ≤ (stringifyState t qs).length := by
  have h := sepByComma_quoted_length qs
  simp only [stringifyState, List.length_cons, List.length_append]
  omega

theorem jsonParse_stringifyState (t : String) (qs : List String) :
    jsonParse (String.mk (stringifyState t qs)) = some (stateJson t qs) := by
  have hlen := stringifyState_length t qs
  simp only [jsonParse]
  rw [show (stringifyState t qs).length + 1 =
    qs.length + ((stringifyState t qs).length - qs.length - 5) + 6 from by omega]
  rw [parseVal_stringifyState]
  simp [skipWs]

/-- The codec round trip at the level of the hydrated fields: decoding the
fragment `#hashState` publishes recovers the title and the question list. -/
theorem unhashState2_hashState (gName : String) (qList : List String) :
    unhashState2 (hashState gName qList) =
      ⟨some (Json.str gName), some (Json.arr (qList.map Json.str)), true⟩ := by
  rw [unhashState2, hashState, decompress_compress]
  simp only [jsStringOrNull]
  rw [jsonParse_stringifyState]
  simp [stateJson, jsGetProp, List.find?]

theorem spliceDelete1_take_drop (l : List α) (i : Int) :
    ∃ s : Nat, spliceDelete1 l i = l.take s ++ l.drop (s + 1) :=
  ⟨_, rfl⟩

theorem spliceDelete1_sublist (l : List α) (i : Int) :
    (spliceDelete1 l i).Sublist l := by
  obtain ⟨s, hs⟩ := spliceDelete1_take_drop l i
  rw [hs]
  have h1 : (l.drop (s + 1)).Sublist (l.drop s) :=
    List.drop_sublist_drop_left l (Nat.le_succ s)
  have h2 := h1.append_left (l.take s)
  rwa [List.take_append_drop] at h2

theorem spliceDelete1_oob (l : List α) (i : Int) (h : (l.length : Int) ≤ i) :
    spliceDelete1 l i = l := by
  simp only [spliceDelete1]
  have h0 : 0 ≤ i := le_trans (by positivity) h
  rw [if_neg (by omega)]
  have hge : l.length ≤ i.toNat := by omega
  rw [min_eq_right hge, List.take_of_length_le (le_refl _),
    List.drop_of_length_le (by omega), List.append_nil]

theorem spliceDelete1_in_range (l : List α) (i : Int) (h0 : 0 ≤ i)
    (h : i < (l.length : Int)) :
    spliceDelete1 l i = l.eraseIdx i.toNat := by
  simp only [spliceDelete1]
  rw [if_neg (by omega), min_eq_left (by omega), List.eraseIdx_eq_take_drop_succ]

theorem spliceDelete1_neg (l : List α) (i : Int) (h : i < 0) :
    spliceDelete1 l i = l.eraseIdx (((l.length : Int) + i) ⊔ 0).toNat := by
  simp only [spliceDelete1]
  rw [if_pos h, List.eraseIdx_eq_take_drop_succ]

theorem qListAdd_not_ok (st : Store) (item : Option Json)
    (h : (qListAdd st item).2 ≠ AddOutcome.ok) : (qListAdd st item).1 = st := by
  cases item with
  | none => rfl
  | some j =>
    cases j with
    | null => rfl
    | bool b => rfl
    | num n => rfl
    | arr l => rfl
    | obj f => rfl
    | str s =>
      by_cases h1 : jsTrim s = ""
      · simp [qListAdd, h1]
      by_cases h2 : jsWordCount s > 20
      · simp [qListAdd, h1, h2]
      · exact absurd (by simp [qListAdd, h1, h2]) h

theorem qListAdd_ok_inv (st : Store) (item : Option Json)
    (h : (qListAdd st item).2 = AddOutcome.ok) :
    ∃ s, item = some (Json.str s) ∧ jsTrim s ≠ "" ∧ jsWordCount s ≤ 20 ∧
      (qListAdd st item).1 =
        ⟨st.gName, st.qList ++ [s], hashState st.gName (st.qList ++ [s])⟩ := by
  cases item with
  | none => exact absurd h (by simp [qListAdd])
  | some j =>
    cases j with
    | null => exact absurd h (by simp [qListAdd])
    | bool b => exact absurd h (by simp [qListAdd])
    | num n => exact absurd h (by simp [qListAdd])
    | arr l => exact absurd h (by simp [qListAdd])
    | obj f => exact absurd h (by simp [qListAdd])
    | str s =>
      by_cases h1 : jsTrim s = ""
      · exact absurd h (by simp [qListAdd, h1])
      by_cases h2 : jsWordCount s > 20
      · exact absurd h (by simp [qListAdd, h1, h2])
      · exact ⟨s, rfl, h1, by omega, by simp [qListAdd, h1, h2]⟩

theorem qListAdd_str_ok (st : Store) (s : String)
    (h1 : jsTrim s ≠ "") (h2 : jsWordCount s ≤ 20) :
    qListAdd st (some (Json.str s)) =
      (⟨st.gName, st.qList ++ [s], hashState st.gName (st.qList ++ [s])⟩,
        AddOutcome.ok) := by
  simp [qListAdd, h1, show ¬jsWordCount s > 20 from by omega]

/-- The states a `hostGame` instance can reach from the empty state through
its public mutators. -/
inductive Reachable : Store → Prop where
  | empty : Reachable ⟨"", [], ""⟩
  | add (st : Store) (item : Option Json) (h : Reachable st) :
      Reachable (qListAdd st item).1
  | del (st : Store) (index : Int) (h : Reachable st) :
      Reachable (qListDelete st index)
  | rename (st : Store) (name : String) (h : Reachable st) :
      Reachable (setGName st name)

theorem unhashState2_shape (frag : String) :
    unhashState2 frag = ⟨some (Json.str ""), some (Json.arr []), false⟩ ∨
    (∃ o, jsonParse (jsStringOrNull (decompressFromEncodedURIComponent frag)) = some o ∧
      o ≠ Json.null ∧
      unhashState2 frag = ⟨jsGetProp o "title", jsGetProp o "list", true⟩) := by
  unfold unhashState2
  cases hp : jsonParse (jsStringOrNull (decompressFromEncodedURIComponent frag)) with
  | none => left; rfl
  | some o =>
    cases o with
    | null => left; rfl
    | bool b => right; exact ⟨_, rfl, by simp, rfl⟩
    | num n => right; exact ⟨_, rfl, by simp, rfl⟩
    | str s => right; exact ⟨_, rfl, by simp, rfl⟩
    | arr l => right; exact ⟨_, rfl, by simp, rfl⟩
    | obj f => right; exact ⟨_, rfl, by simp, rfl⟩

theorem unhashState2_fail (frag : String)
    (h : (unhashState2 frag).success = false) :
    unhashState2 frag = ⟨some (Json.str ""), some (Json.arr []), false⟩ := by
  rcases unhashState2_shape frag with he | ⟨o, _, _, he⟩
  · exact he
  · rw [he] at h
    simp at h

/-- C1: for every valid `GameState` (a title and a list of question strings
each non-empty after trimming and of at most 20 whitespace-delimited words),
decoding the fragment produced by `#hashState` recovers a state deep-equal
to the input: the title and every question, in order, are recovered
exactly. -/
theorem C1_encode_decode_round_trip (gName : String) (qList : List String)
    (_hv : ∀ q ∈ qList, ValidQuestion q) :
    unhashState2 (hashState gName qList) =
      ⟨some (Json.str gName), some (Json.arr (qList.map Json.str)), true⟩ :=
  unhashState2_hashState gName qList

theorem C1_encode_decode_round_trip_witness :
    unhashState2 (hashState "Trivia Night" ["What year did WWII end?"]) =
      ⟨some (Json.str "Trivia Night"),
        some (Json.arr [Json.str "What year did WWII end?"]), true⟩ :=
  C1_encode_decode_round_trip "Trivia Night" ["What year did WWII end?"] (by decide)

/-- C2: `qListAdd` validates in source order: a non-string input fails with
the not-a-string error; an input empty after trimming fails with the
empty-question error; an input of more than 20 whitespace-delimited words
fails with the too-many-words error carrying the computed word count;
otherwise it succeeds and appends the question at the end of the list. -/
theorem C2_qListAdd_validation (st : Store) (item : Option Json) :
    ((∀ s, item ≠ some (Json.str s)) →
      qListAdd st item = (st, AddOutcome.notAString)) ∧
    (∀ s, item = some (Json.str s) → jsTrim s = "" →
      qListAdd st item = (st, AddOutcome.emptyQuestion)) ∧
    (∀ s, item = some (Json.str s) → jsTrim s ≠ "" → 20 < jsWordCount s →
      qListAdd st item = (st, AddOutcome.tooManyWords (jsWordCount s))) ∧
    (∀ s, item = some (Json.str s) → jsTrim s ≠ "" → jsWordCount s ≤ 20 →
      qListAdd st item =
        (⟨st.gName, st.qList ++ [s], hashState st.gName (st.qList ++ [s])⟩,
          AddOutcome.ok)) := by
  refine ⟨?_, ?_, ?_, ?_⟩
  · intro hns
    cases item with
    | none => rfl
    | some j =>
      cases j with
      | null => rfl
      | bool b => rfl
      | num n => rfl
      | arr l => rfl
      | obj f => rfl
      | str s => exact absurd rfl (hns s)
  · intro s hi h1
    subst hi
    simp [qListAdd, h1]
  · intro s hi h1 h2
    subst hi
    simp [qListAdd, h1, h2]
  · intro s hi h1 h2
    subst hi
    exact qListAdd_str_ok st s h1 h2

theorem C2_qListAdd_validation_witness :
    qListAdd ⟨"", [], ""⟩ none = (⟨"", [], ""⟩, AddOutcome.notAString) ∧
    qListAdd ⟨"", [], ""⟩ (some (Json.str "   ")) =
      (⟨"", [], ""⟩, AddOutcome.emptyQuestion) ∧
    qListAdd ⟨"", [], ""⟩
        (some (Json.str "w w w w w w w w w w w w w w w w w w w w w")) =
      (⟨"", [], ""⟩, AddOutcome.tooManyWords 21) := by
  refine ⟨(C2_qListAdd_validation ⟨"", [], ""⟩ none).1
      (fun s h => Option.noConfusion h),
    (C2_qListAdd_validation ⟨"", [], ""⟩ (some (Json.str "   "))).2.1 "   " rfl
      (by decide), ?_⟩
  have h := (C2_qListAdd_validation ⟨"", [], ""⟩
      (some (Json.str "w w w w w w w w w w w w w w w w w w w w w"))).2.2.1
      "w w w w w w w w w w w w w w w w w w w w w" rfl (by decide) (by decide)
  rw [h, show jsWordCount "w w w w w w w w w w w w w w w w w w w w w" = 21 from by decide]

/-- C3: whenever `qListAdd` returns a validation failure, the returned store
is exactly the input store: the title, the question list and the published
fragment are untouched, and no re-encode runs on the error path. -/
theorem C3_error_leaves_state (st : Store) (item : Option Json)
    (h : (qListAdd st item).2 ≠ AddOutcome.ok) :
    (qListAdd st item).1 = st :=
  qListAdd_not_ok st item h

theorem C3_error_leaves_state_witness :
    (qListAdd ⟨"t", ["A"], "frag"⟩ none).1 = ⟨"t", ["A"], "frag"⟩ :=
  C3_error_leaves_state ⟨"t", ["A"], "frag"⟩ none (by decide)

/-- C4 counterexample: `qListDelete (-1)` on a two-element list deletes the
last element, because `splice` counts a negative index from the end; the
claim that every negative index leaves the list unchanged is false. -/
theorem C4_counterexample :
    (qListDelete ⟨"g", ["A", "B"], "h"⟩ (-1)).qList ≠ ["A", "B"] ∧
    (qListDelete ⟨"g", ["A", "B"], "h"⟩ (-1)).qList = ["A"] := by
  exact ⟨by decide, by decide⟩

/-- C4 (amended): `qListDelete` never errors and always re-syncs the
fragment; an index at or beyond the length is a no-op on the list; an
in-range index removes exactly that element; a negative index follows
JavaScript `splice` semantics and removes the element at
`max(length + index, 0)`. -/
theorem C4_delete_splice (st : Store) (index : Int) :
    ((st.qList.length : Int) ≤ index → (qListDelete st index).qList = st.qList) ∧
    (0 ≤ index → index < (st.qList.length : Int) →
      (qListDelete st index).qList = st.qList.eraseIdx index.toNat) ∧
    (index < 0 →
      (qListDelete st index).qList =
        st.qList.eraseIdx (((st.qList.length : Int) + index) ⊔ 0).toNat) ∧
    (qListDelete st index).gName = st.gName ∧
    (qListDelete st index).hash = hashState st.gName (qListDelete st index).qList :=
  ⟨fun h => spliceDelete1_oob _ _ h,
   fun h0 h => spliceDelete1_in_range _ _ h0 h,
   fun h => spliceDelete1_neg _ _ h, rfl, rfl⟩

theorem C4_delete_splice_witness :
    (qListDelete ⟨"g", ["A", "B"], "h"⟩ 99).qList = ["A", "B"] ∧
    (qListDelete ⟨"g", ["A", "B"], "h"⟩ 1).qList = ["A"] := by
  refine ⟨(C4_delete_splice ⟨"g", ["A", "B"], "h"⟩ 99).1 (by decide), ?_⟩
  have h := (C4_delete_splice ⟨"g", ["A", "B"], "h"⟩ 1).2.1 (by decide) (by decide)
  rw [h]
  decide

/-- C5 counterexample: in the first revision of `#unhashState` there is no
try/catch, so a fragment that decompresses to text that is not JSON makes
`JSON.parse` throw past the caller instead of returning a decode-error
result. -/
theorem C5_counterexample :
    unhashState1 (compressToEncodedURIComponent "hello") = Except.error () := rfl

/-- C5 (amended): in the second revision of `#unhashState` every fragment is
handled without an exception escaping: whenever the result reports failure
both fields hold the empty state, and the empty fragment and a
non-decompressible fragment both take that error path.  In the first
revision only decompression-level failures are handled; malformed
structured text escapes as a thrown exception. -/
theorem C5_decode_fallback :
    (∀ frag, (unhashState2 frag).success = false →
      unhashState2 frag = ⟨some (Json.str ""), some (Json.arr []), false⟩) ∧
    unhashState2 "" = ⟨some (Json.str ""), some (Json.arr []), false⟩ ∧
    unhashState2 "not-valid-compressed-data" =
      ⟨some (Json.str ""), some (Json.arr []), false⟩ :=
  ⟨fun frag h => unhashState2_fail frag h, rfl, rfl⟩

theorem C5_decode_fallback_witness :
    unhashState2 "" = ⟨some (Json.str ""), some (Json.arr []), false⟩ :=
  C5_decode_fallback.1 "" rfl

/-- C6 counterexample: a fragment whose decoded JSON is missing the `list`
field does not yield a decode error: decode succeeds, hydrates the title,
and leaves the question-list field `undefined` — a partially populated
state. -/
theorem C6_counterexample :
    (unhashState2
      (compressToEncodedURIComponent "\x7b\"title\":\"hi\"\x7d")).success = true ∧
    (unhashState2
      (compressToEncodedURIComponent "\x7b\"title\":\"hi\"\x7d")).gName =
        some (Json.str "hi") ∧
    (unhashState2
      (compressToEncodedURIComponent "\x7b\"title\":\"hi\"\x7d")).qList = none :=
  ⟨rfl, rfl, rfl⟩

/-- C6 (amended): decode is all-or-nothing only between the error path and
the assignment path: either it fails (decompression failure, parse failure,
or a `null` value) and both fields are reset together, or it succeeds and
both fields are assigned the parsed value's `title` and `list` properties —
but a missing property is assigned as `undefined` rather than producing a
`DecodeError`. -/
theorem C6_decode_all_or_nothing (frag : String) :
    unhashState2 frag = ⟨some (Json.str ""), some (Json.arr []), false⟩ ∨
    (∃ o, jsonParse (jsStringOrNull (decompressFromEncodedURIComponent frag)) = some o ∧
      o ≠ Json.null ∧
      unhashState2 frag = ⟨jsGetProp o "title", jsGetProp o "list", true⟩) :=
  unhashState2_shape frag

/-- C7: the published fragment is a pure deterministic function of the
`(title, questions)` pair: equal pairs encode to the identical string, and
after every successful mutation the stored fragment equals `hashState` of
the new pair, independent of any previously stored fragment. -/
theorem C7_encode_deterministic :
    (∀ g q g2 q2, g = g2 → q = q2 → hashState g q = hashState g2 q2) ∧
    (∀ (st : Store) name, (setGName st name).hash = hashState name st.qList) ∧
    (∀ (st : Store) index, (qListDelete st index).hash =
      hashState st.gName (qListDelete st index).qList) ∧
    (∀ (st : Store) item, (qListAdd st item).2 = AddOutcome.ok →
      (qListAdd st item).1.hash =
        hashState (qListAdd st item).1.gName (qListAdd st item).1.qList) := by
  refine ⟨fun g q g2 q2 hg hq => by rw [hg, hq],
    fun st name => rfl, fun st index => rfl, ?_⟩
  intro st item h
  obtain ⟨s, hi, h1, h2, hst⟩ := qListAdd_ok_inv st item h
  rw [hst]

theorem C7_encode_deterministic_witness :
    (qListAdd ⟨"t", [], "stale"⟩ (some (Json.str "hi"))).1.hash =
      hashState (qListAdd ⟨"t", [], "stale"⟩ (some (Json.str "hi"))).1.gName
        (qListAdd ⟨"t", [], "stale"⟩ (some (Json.str "hi"))).1.qList :=
  C7_encode_deterministic.2.2.2 ⟨"t", [], "stale"⟩ (some (Json.str "hi")) (by decide)

/-- C8 counterexample: decode validates nothing, so a crafted fragment
hydrates the state at initialization with a question that is empty after
trimming, violating the claimed invariant for hydrated states. -/
theorem C8_counterexample :
    (unhashState2 (compressToEncodedURIComponent
      "\x7b\"title\":\"\",\"list\":[\"\"]\x7d")).success = true ∧
    (unhashState2 (compressToEncodedURIComponent
      "\x7b\"title\":\"\",\"list\":[\"\"]\x7d")).qList =
        some (Json.arr [Json.str ""]) ∧
    ¬ ValidQuestion "" :=
  ⟨rfl, rfl, by decide⟩

/-- C8 (amended): every state reachable from the empty state through the
mutators (`qListAdd`, `qListDelete`, `setGName`) has only questions that
are non-empty after trimming with at most 20 whitespace-delimited words;
hydration from an arbitrary fragment is not validated and can violate
this. -/
theorem C8_reachable_questions_valid (st : Store) (h : Reachable st) :
    ∀ q ∈ st.qList, ValidQuestion q := by
  induction h with
  | empty => intro q hq; simp at hq
  | add st item h ih =>
    by_cases hok : (qListAdd st item).2 = AddOutcome.ok
    · obtain ⟨s, hi, h1, h2, hst⟩ := qListAdd_ok_inv st item hok
      rw [hst]
      intro q hq
      rcases List.mem_append.mp hq with hq | hq
      · exact ih q hq
      · have hqs : q = s := by simpa using hq
        subst hqs
        exact ⟨h1, h2⟩
    · rw [qListAdd_not_ok st item hok]
      exact ih
  | del st index h ih =>
    intro q hq
    exact ih q ((spliceDelete1_sublist st.qList index).subset hq)
  | rename st name h ih => exact ih

theorem C8_reachable_questions_valid_witness : ValidQuestion "hi" :=
  C8_reachable_questions_valid _
    (Reachable.add ⟨"", [], ""⟩ (some (Json.str "hi")) Reachable.empty)
    "hi" (by decide)

/-- C9: relative order of questions is preserved: a successful `qListAdd`
appends at the end, `qListDelete` yields a sublist (one element removed, no
reordering), an encode/decode round trip returns the questions in order,
and adding A, B, C then deleting index 1 yields exactly A, C. -/
theorem C9_order_preserved :
    (∀ (st : Store) s, (qListAdd st (some (Json.str s))).2 = AddOutcome.ok →
      (qListAdd st (some (Json.str s))).1.qList = st.qList ++ [s]) ∧
    (∀ (l : List String) (index : Int), (spliceDelete1 l index).Sublist l) ∧
    (∀ g qs, (unhashState2 (hashState g qs)).qList =
      some (Json.arr (qs.map Json.str))) ∧
    (qListDelete (qListAdd (qListAdd (qListAdd ⟨"", [], ""⟩
        (some (Json.str "A"))).1 (some (Json.str "B"))).1
        (some (Json.str "C"))).1 1).qList = ["A", "C"] := by
  refine ⟨?_, fun l index => spliceDelete1_sublist l index, ?_, by decide⟩
  · intro st s h
    obtain ⟨s2, hi, h1, h2, hst⟩ := qListAdd_ok_inv _ _ h
    obtain rfl : s = s2 := by
      have := hi
      simp only [Option.some.injEq, Json.str.injEq] at this
      exact this
    rw [hst]
  · intro g qs
    rw [unhashState2_hashState]

theorem C9_order_preserved_witness :
    (qListAdd ⟨"", ["A"], ""⟩ (some (Json.str "B"))).1.qList = ["A", "B"] := by
  have h := C9_order_preserved.1 ⟨"", ["A"], ""⟩ "B" (by decide)
  exact h.trans (by decide)

/-- C10: a successful `qListAdd` appends the original input verbatim, not
its trimmed form, and `getQuestions` returns it with surrounding whitespace
intact. -/
theorem C10_verbatim_append (st : Store) (s : String)
    (h1 : jsTrim s ≠ "") (h2 : jsWordCount s ≤ 20) :
    getQuestions (qListAdd st (some (Json.str s))).1 = getQuestions st ++ [s] := by
  rw [qListAdd_str_ok st s h1 h2]
  rfl

theorem C10_verbatim_append_witness :
    getQuestions (qListAdd ⟨"", [], ""⟩ (some (Json.str " hello "))).1 =
      [" hello "] := by
  have h := C10_verbatim_append ⟨"", [], ""⟩ " hello " (by decide) (by decide)
  exact h.trans (by decide)

end QRHunt
